import Mathlib

/-!
Verification of the lambda-calculus LL(1) parser (`src/parser.py`).

The parser is embedded shallowly: the parser state (`self.token` plus the
remaining lexer stream) is a `List Token`, whose head is the current
lookahead; an empty list means the lexer keeps producing the end-marker
token.  Each production of the Python class becomes a Lean function that
returns the parse outcome together with the state left behind (the state
component models `self.token`/the lexer position at the moment the call
returns or the exception propagates — Python's `ParserError` unwinds
without touching the state).  The mutual recursion of `_expression`,
`_application` and `_abstraction` is resolved with a fuel parameter;
fuel exhaustion is `none`, and we prove that fuel linear in the token
count never runs out, which is the termination argument of the source.
-/

namespace LambdaParser

/-- A typed lexical unit, as produced by the lexer: a `type` (one of the
closed vocabulary `(`, `)`, `λ`, `@`, `.`, `SYMBOL`, end-marker) and the
raw text `value` (meaningful only for `SYMBOL`). -/
structure Token where
  type : String
  value : String
deriving DecidableEq, Repr

/-- Modelled from the spec: the AST node constructors of the missing
`lambda_calculus_ast` module (`Variable`, `Application`, `Abstraction`);
per §6 they perform no validation beyond storing the given values, so
they are plain data constructors. `Abstraction` stores the bound
variable (always a `Variable` node as built by the parser) and the
body. -/
inductive Node where
  | Variable (name : String)
  | Application (fn arg : Node)
  | Abstraction (bound body : Node)
deriving DecidableEq, Repr

/-- `ParserError(expected, found)`: the single grammar-mismatch error
kind, carrying exactly the two fields of the Python class. -/
structure ParserError where
  expected : String
  found : String
deriving DecidableEq, Repr

/-- The message the Python constructor formats from the two fields. -/
def ParserError.message (e : ParserError) : String :=
  "Expected: " ++ e.expected ++ ", Found: " ++ e.found

/-- Modelled from the spec: the designated end-marker token type that the
lexer (not under `src/`) returns indefinitely after the logical end of
input (§6). -/
def eofType : String := "EOF"

/-- The token the exhausted lexer keeps producing. -/
def eofToken : Token := ⟨eofType, ""⟩

/-- `self.token`, the current lookahead: the head of the remaining
stream, or the end-marker once the stream is exhausted. -/
def currentToken (l : List Token) : Token := l.headD eofToken

/-- `_advance`: `self.token = self.lexer.next()`. -/
def advance (l : List Token) : List Token := l.tail

/-- Outcome of a production: the returned node or the propagating
`ParserError`, paired with the parser state at that moment.  `none` is
fuel exhaustion (it never occurs for sufficient fuel, see
`expression_adequate`). -/
abbrev PRes := Option (Except ParserError Node × List Token)

/-- `_eat(prediction)`: advance only if the lookahead's type matches the
expected form, otherwise raise without consuming. -/
def eat (prediction : String) (l : List Token) :
    Except ParserError Unit × List Token :=
  if (currentToken l).type = prediction then (.ok (), advance l)
  else (.error ⟨prediction, (currentToken l).type⟩, l)

/-- `_variable`: return a `Variable` holding the symbol's value if the
current token is a `SYMBOL`, else raise `ParserError("SYMBOL", ...)`. -/
def variableRule (l : List Token) : Except ParserError Node × List Token :=
  if (currentToken l).type = "SYMBOL" then
    (.ok (.Variable (currentToken l).value), advance l)
  else (.error ⟨"SYMBOL", (currentToken l).type⟩, l)

/-- `_application`, parameterised by the `_expression` recursion: if the
current token is `(`, advance, parse the function-position expression,
then the argument-position expression, eat `)`, and build the
`Application`; otherwise raise `ParserError("(", ...)`. -/
def applicationWith (expr : List Token → PRes) (l : List Token) : PRes :=
  if (currentToken l).type = "(" then
    match expr (advance l) with
    | none => none
    | some (.error e, l1) => some (.error e, l1)
    | some (.ok left, l1) =>
      match expr l1 with
      | none => none
      | some (.error e, l2) => some (.error e, l2)
      | some (.ok right, l2) =>
        match eat ")" l2 with
        | (.error e, l3) => some (.error e, l3)
        | (.ok _, l3) => some (.ok (.Application left right), l3)
  else some (.error ⟨"(", (currentToken l).type⟩, l)

/-- `_abstraction`, parameterised by the `_expression` recursion: if the
current token is `λ` or `@`, advance, parse the bound variable, eat `.`,
parse the body, and build the `Abstraction`; otherwise raise
`ParserError("λ or @", ...)`. -/
def abstractionWith (expr : List Token → PRes) (l : List Token) : PRes :=
  if (currentToken l).type = "λ" ∨ (currentToken l).type = "@" then
    match variableRule (advance l) with
    | (.error e, l1) => some (.error e, l1)
    | (.ok v, l1) =>
      match eat "." l1 with
      | (.error e, l2) => some (.error e, l2)
      | (.ok _, l2) =>
        match expr l2 with
        | none => none
        | some (.error e, l3) => some (.error e, l3)
        | some (.ok body, l3) => some (.ok (.Abstraction v body), l3)
  else some (.error ⟨"λ or @", (currentToken l).type⟩, l)

/-- `_expression`: the LL(1) dispatch on the current token's type —
`(` enters `_application`, `λ` or `@` enters `_abstraction`, `SYMBOL`
enters `_variable`, anything else raises
`ParserError("(, λ, @, or SYMBOL", ...)`. -/
def expression : Nat → List Token → PRes
  | 0, _ => none
  | n + 1, l =>
    if (currentToken l).type = "(" then applicationWith (expression n) l
    else if (currentToken l).type = "λ" ∨ (currentToken l).type = "@" then
      abstractionWith (expression n) l
    else if (currentToken l).type = "SYMBOL" then some (variableRule l)
    else some (.error ⟨"(, λ, @, or SYMBOL", (currentToken l).type⟩, l)

/-- `parse()`: a single top-level `_expression` over the whole stream.
Fuel one past the token count always suffices (`expression_adequate`). -/
def parse (l : List Token) : PRes := expression (l.length + 1) l

/-- The grammar of §4.1, as a derivation relation between a token
sequence and the AST its derivation prescribes (written from the spec's
EBNF, to be compared against the parser):
`expression := application | abstraction | variable`,
`application := '(' expression expression ')'`,
`abstraction := ('λ'|'@') variable '.' expression`,
`variable := SYMBOL`.  Only token types are constrained by the
punctuation; a `SYMBOL`'s value becomes the variable's name. -/
inductive Derives : Node → List Token → Prop
  | var (s : String) : Derives (.Variable s) [⟨"SYMBOL", s⟩]
  | app (f a : Node) (tf ta : List Token) (v w : String) :
      Derives f tf → Derives a ta →
      Derives (.Application f a) (⟨"(", v⟩ :: tf ++ ta ++ [⟨")", w⟩])
  | abs (lam : String) (hlam : lam = "λ" ∨ lam = "@") (u x w : String)
      (b : Node) (tb : List Token) : Derives b tb →
      Derives (.Abstraction (.Variable x) b)
        (⟨lam, u⟩ :: ⟨"SYMBOL", x⟩ :: ⟨".", w⟩ :: tb)

/-! ### Basic facts about the state primitives -/

theorem currentToken_nil : currentToken [] = eofToken := rfl

theorem currentToken_cons (t : Token) (l : List Token) :
    currentToken (t :: l) = t := rfl

theorem ne_nil_of_currentToken_ne_eof (l : List Token)
    (h : (currentToken l).type ≠ eofType) : l ≠ [] := by
  intro hl
  subst hl
  exact h rfl

theorem advance_suffix (l : List Token) : advance l <:+ l :=
  List.tail_suffix l

theorem length_advance_le (l : List Token) : (advance l).length ≤ l.length :=
  (advance_suffix l).length_le

theorem length_advance_lt (l : List Token) (hl : l ≠ []) :
    (advance l).length < l.length := by
  cases l with
  | nil => exact absurd rfl hl
  | cons t r => simp [advance]

theorem eat_error (p : String) (l l' : List Token) (e : ParserError)
    (h : eat p l = (.error e, l')) :
    e = ⟨p, (currentToken l).type⟩ ∧ l' = l ∧ (currentToken l).type ≠ p := by
  by_cases hc : (currentToken l).type = p
  · simp [eat, hc] at h
  · simp [eat, hc] at h
    exact ⟨h.1.symm, h.2.symm, hc⟩

theorem eat_ok (p : String) (l l' : List Token) (u : Unit)
    (h : eat p l = (.ok u, l')) :
    (currentToken l).type = p ∧ l' = advance l := by
  by_cases hc : (currentToken l).type = p
  · simp [eat, hc] at h
    exact ⟨hc, h.symm⟩
  · simp [eat, hc] at h

theorem variableRule_error (l l' : List Token) (e : ParserError)
    (h : variableRule l = (.error e, l')) :
    e = ⟨"SYMBOL", (currentToken l).type⟩ ∧ l' = l ∧
      (currentToken l).type ≠ "SYMBOL" := by
  by_cases hc : (currentToken l).type = "SYMBOL"
  · simp [variableRule, hc] at h
  · simp [variableRule, hc] at h
    exact ⟨h.1.symm, h.2.symm, hc⟩

theorem variableRule_ok (l l' : List Token) (t : Node)
    (h : variableRule l = (.ok t, l')) :
    (currentToken l).type = "SYMBOL" ∧
      t = .Variable (currentToken l).value ∧ l' = advance l := by
  by_cases hc : (currentToken l).type = "SYMBOL"
  · simp [variableRule, hc] at h
    exact ⟨hc, h.1.symm, h.2.symm⟩
  · simp [variableRule, hc] at h

/-! ### The parse invariant: monotone consumption, error lookahead,
reachable expected-descriptions, and progress on success -/

/-- The `expected` descriptions that can actually reach a `parse()`
caller (the leading-mismatch branches of `_application` and
`_abstraction` are guarded by `_expression`'s dispatch). -/
def reachableExpected : List String :=
  ["(, λ, @, or SYMBOL", "SYMBOL", ".", ")"]

/-- Invariant of every production outcome `r` on entry state `l`: the
final state is a suffix of `l` (tokens are only ever consumed); a
propagating error reports the lookahead at the final state in `found`
and one of the reachable descriptions in `expected`; a success has
consumed at least one token. -/
def GoodResult (l : List Token) : Except ParserError Node × List Token → Prop
  | (.error e, l') =>
      l' <:+ l ∧ e.found = (currentToken l').type ∧
        e.expected ∈ reachableExpected
  | (.ok _, l') => l' <:+ l ∧ l'.length < l.length

theorem applicationWith_good (expr : List Token → PRes)
    (hexpr : ∀ t r, expr t = some r → GoodResult t r)
    (l : List Token) (hc : (currentToken l).type = "(")
    (r : Except ParserError Node × List Token)
    (h : applicationWith expr l = some r) : GoodResult l r := by
  have hne : l ≠ [] :=
    ne_nil_of_currentToken_ne_eof l (by rw [hc]; decide)
  unfold applicationWith at h
  rw [if_pos hc] at h
  split at h
  · exact absurd h (by simp)
  · rename_i e l1 h1
    obtain rfl := Option.some_inj.mp h
    have g1 := hexpr _ _ h1
    exact ⟨g1.1.trans (advance_suffix l), g1.2.1, g1.2.2⟩
  · rename_i left l1 h1
    have g1 := hexpr _ _ h1
    split at h
    · exact absurd h (by simp)
    · rename_i e l2 h2
      obtain rfl := Option.some_inj.mp h
      have g2 := hexpr _ _ h2
      exact ⟨(g2.1.trans g1.1).trans (advance_suffix l), g2.2.1, g2.2.2⟩
    · rename_i right l2 h2
      have g2 := hexpr _ _ h2
      split at h
      · rename_i e l3 h3
        obtain rfl := Option.some_inj.mp h
        obtain ⟨he, rfl, _⟩ := eat_error _ _ _ _ h3
        refine ⟨(g2.1.trans g1.1).trans (advance_suffix l), ?_, ?_⟩
        · rw [he]
        · rw [he]; simp [reachableExpected]
      · rename_i u l3 h3
        obtain rfl := Option.some_inj.mp h
        obtain ⟨hcur, rfl⟩ := eat_ok _ _ _ _ h3
        have hl2 : l2 ≠ [] :=
          ne_nil_of_currentToken_ne_eof l2 (by rw [hcur]; decide)
        constructor
        · exact ((advance_suffix l2).trans
            ((g2.1.trans g1.1).trans (advance_suffix l)))
        · have e1 := g1.2
          have e2 := g2.2
          have e3 := length_advance_lt l2 hl2
          have e4 := length_advance_lt l hne
          omega

theorem abstractionWith_good (expr : List Token → PRes)
    (hexpr : ∀ t r, expr t = some r → GoodResult t r)
    (l : List Token)
    (hc : (currentToken l).type = "λ" ∨ (currentToken l).type = "@")
    (r : Except ParserError Node × List Token)
    (h : abstractionWith expr l = some r) : GoodResult l r := by
  have hne : l ≠ [] := by
    refine ne_nil_of_currentToken_ne_eof l ?_
    rcases hc with hc | hc <;> rw [hc] <;> decide
  unfold abstractionWith at h
  rw [if_pos hc] at h
  split at h
  · rename_i e l1 h1
    obtain rfl := Option.some_inj.mp h
    obtain ⟨he, rfl, _⟩ := variableRule_error _ _ _ h1
    refine ⟨advance_suffix l, ?_, ?_⟩
    · rw [he]
    · rw [he]; simp [reachableExpected]
  · rename_i v l1 h1
    obtain ⟨hsym, hv, rfl⟩ := variableRule_ok _ _ _ h1
    split at h
    · rename_i e l2 h2
      obtain rfl := Option.some_inj.mp h
      obtain ⟨he, rfl, _⟩ := eat_error _ _ _ _ h2
      refine ⟨(advance_suffix _).trans (advance_suffix l), ?_, ?_⟩
      · rw [he]
      · rw [he]; simp [reachableExpected]
    · rename_i u l2 h2
      obtain ⟨hdot, rfl⟩ := eat_ok _ _ _ _ h2
      have hsuf : advance (advance (advance l)) <:+ l :=
        ((advance_suffix _).trans (advance_suffix _)).trans
          (advance_suffix l)
      split at h
      · exact absurd h (by simp)
      · rename_i e l3 h3
        obtain rfl := Option.some_inj.mp h
        have g3 := hexpr _ _ h3
        exact ⟨g3.1.trans hsuf, g3.2.1, g3.2.2⟩
      · rename_i body l3 h3
        obtain rfl := Option.some_inj.mp h
        have g3 := hexpr _ _ h3
        refine ⟨g3.1.trans hsuf, ?_⟩
        have e1 := g3.2
        have e2 := hsuf.length_le
        have e3 := length_advance_lt l hne
        have e4 := length_advance_le (advance l)
        have e5 := length_advance_le (advance (advance l))
        omega

theorem expression_good : ∀ (n : Nat) (l : List Token)
    (r : Except ParserError Node × List Token),
    expression n l = some r → GoodResult l r := by
  intro n
  induction n with
  | zero => intro l r h; exact absurd h (by simp [expression])
  | succ n IH =>
    intro l r h
    simp only [expression] at h
    split at h
    · exact applicationWith_good (expression n) IH l (by assumption) r h
    · split at h
      · exact abstractionWith_good (expression n) IH l (by assumption) r h
      · split at h
        · rename_i hs
          obtain rfl := Option.some_inj.mp h
          have hne : l ≠ [] :=
            ne_nil_of_currentToken_ne_eof l (by rw [hs]; decide)
          rw [variableRule, if_pos hs]
          exact ⟨advance_suffix l, length_advance_lt l hne⟩
        · obtain rfl := Option.some_inj.mp h
          exact ⟨List.suffix_refl l, rfl, by simp [reachableExpected]⟩

/-! ### Fuel adequacy: fuel one past the token count never runs out -/

theorem expression_adequate : ∀ (n : Nat) (l : List Token),
    l.length < n → expression n l ≠ none := by
  intro n
  induction n with
  | zero => intro l hl; exact absurd hl (Nat.not_lt_zero _)
  | succ n IH =>
    intro l hl
    simp only [expression]
    split
    · rename_i hc
      have hne : l ≠ [] :=
        ne_nil_of_currentToken_ne_eof l (by rw [hc]; decide)
      have hpos : 0 < l.length := List.length_pos.mpr hne
      unfold applicationWith
      rw [if_pos hc]
      cases h1 : expression n (advance l) with
      | none =>
        refine absurd h1 (IH (advance l) ?_)
        have := length_advance_lt l hne
        omega
      | some r1 =>
        obtain ⟨res1, l1⟩ := r1
        cases res1 with
        | error e => simp [h1]
        | ok left =>
          have g1 := expression_good n _ _ h1
          cases h2 : expression n l1 with
          | none =>
            refine absurd h2 (IH l1 ?_)
            have := length_advance_lt l hne
            have := g1.2
            omega
          | some r2 =>
            obtain ⟨res2, l2⟩ := r2
            cases res2 with
            | error e => simp [h1, h2]
            | ok right =>
              cases h3 : eat ")" l2 with
              | mk res3 l3 => cases res3 <;> simp [h1, h2, h3]
    · split
      · rename_i hc
        have hne : l ≠ [] := by
          refine ne_nil_of_currentToken_ne_eof l ?_
          rcases hc with hc | hc <;> rw [hc] <;> decide
        unfold abstractionWith
        rw [if_pos hc]
        cases h1 : variableRule (advance l) with
        | mk res1 l1 =>
          cases res1 with
          | error e => simp [h1]
          | ok v =>
            obtain ⟨hsym, hv, rfl⟩ := variableRule_ok _ _ _ h1
            cases h2 : eat "." (advance (advance l)) with
            | mk res2 l2 =>
              cases res2 with
              | error e => simp [h1, h2]
              | ok u =>
                obtain ⟨hdot, rfl⟩ := eat_ok _ _ _ _ h2
                cases h3 : expression n (advance (advance (advance l))) with
                | none =>
                  refine absurd h3 (IH _ ?_)
                  have := length_advance_lt l hne
                  have := length_advance_le (advance l)
                  have := length_advance_le (advance (advance l))
                  omega
                | some r3 =>
                  obtain ⟨res3, l3⟩ := r3
                  cases res3 <;> simp [h1, h2, h3]
      · split
        · simp
        · simp

/-! ### Completeness: the parser accepts every grammar derivation,
consuming exactly its tokens and leaving any continuation untouched -/

theorem expression_complete (t : Node) (toks : List Token)
    (h : Derives t toks) : ∀ (ext : List Token) (n : Nat),
    toks.length < n →
    expression n (toks ++ ext) = some (.ok t, ext) := by
  induction h with
  | var s =>
    intro ext n hn
    obtain ⟨m, rfl⟩ : ∃ m, n = m + 1 := ⟨n - 1, by omega⟩
    simp [expression, currentToken, variableRule, advance]
  | app f a tf ta v w hf ha IHf IHa =>
    intro ext n hn
    obtain ⟨m, rfl⟩ : ∃ m, n = m + 1 := ⟨n - 1, by omega⟩
    simp only [List.length_cons, List.length_append] at hn
    have h1 := IHf (ta ++ (⟨")", w⟩ :: ext)) m (by omega)
    have h2 := IHa (⟨")", w⟩ :: ext) m (by omega)
    simp [expression, currentToken, applicationWith, advance,
      List.append_assoc, h1, h2, eat]
  | abs lam hlam u x w b tb hb IH =>
    intro ext n hn
    obtain ⟨m, rfl⟩ : ∃ m, n = m + 1 := ⟨n - 1, by omega⟩
    simp only [List.length_cons] at hn
    have h1 := IH ext m (by omega)
    rcases hlam with rfl | rfl <;>
      simp [expression, currentToken, abstractionWith, advance,
        variableRule, eat, h1]

/-! ### The claims -/

/-- C1: for every token sequence derivable from the grammar
(`expression := application | abstraction | variable`, etc.), `parse()`
succeeds without raising an error and returns the AST whose shape —
node kind and arity at every position — matches the grammar derivation
of that sequence (and the whole sequence is consumed). -/
theorem claim_C1 (t : Node) (toks : List Token) (h : Derives t toks) :
    parse toks = some (.ok t, []) := by
  have hc := expression_complete t toks h [] (toks.length + 1) (by omega)
  simpa [parse] using hc

theorem claim_C1_witness :
    parse [⟨"SYMBOL", "x"⟩] = some (.ok (.Variable "x"), []) :=
  claim_C1 _ _ (Derives.var "x")

/-- C2: for every token stream whose first token's type is not one of
`(`, `λ`, `@`, `SYMBOL` (including the empty stream, whose first token
is the end-marker), `parse()` fails with a grammar-mismatch error whose
`found` field is that first token's type and whose `expected` field
lists all four initial dispatch options, and the failing dispatch
consumes no token (the final state is the entry state). -/
theorem claim_C2 (l : List Token)
    (h : (currentToken l).type ∉ (["(", "λ", "@", "SYMBOL"] : List String)) :
    parse l =
      some (.error ⟨"(, λ, @, or SYMBOL", (currentToken l).type⟩, l) := by
  simp only [List.mem_cons, List.mem_singleton, not_or] at h
  obtain ⟨h1, h2, h3, h4⟩ := h
  simp [parse, expression, h1, h2, h3, h4]

theorem claim_C2_witness :
    parse [] = some (.error ⟨"(, λ, @, or SYMBOL", eofType⟩, []) :=
  claim_C2 [] (by decide)

/-- C3: `parse()` performs no end-of-stream check after the top-level
expression: on any stream whose prefix is a complete grammar
derivation, it returns the AST of that prefix and silently ignores all
trailing tokens, regardless of what they are. -/
theorem claim_C3 (t : Node) (p ext : List Token) (h : Derives t p) :
    parse (p ++ ext) = some (.ok t, ext) := by
  have hc := expression_complete t p h ext ((p ++ ext).length + 1)
    (by simp [List.length_append]; omega)
  simpa [parse] using hc

theorem claim_C3_witness :
    parse [⟨"SYMBOL", "x"⟩, ⟨")", ")"⟩] =
      some (.ok (.Variable "x"), [⟨")", ")"⟩]) :=
  claim_C3 _ [⟨"SYMBOL", "x"⟩] [⟨")", ")"⟩] (Derives.var "x")

/-- C4: every failure of `parse()` is the single grammar-mismatch error
kind carrying exactly the two fields `expected` and `found`; `found` is
the actual lookahead's type at the abort point; the first mismatch
aborts the whole parse with no partial AST (the outcome is an error,
not a node) and no recovery or resynchronization (tokens were only ever
consumed monotonically: the abort state is a suffix of the input). -/
theorem claim_C4 (l l' : List Token) (e : ParserError)
    (h : parse l = some (.error e, l')) :
    e = ⟨e.expected, e.found⟩ ∧ e.found = (currentToken l').type ∧
      l' <:+ l := by
  have g := expression_good _ _ _ h
  exact ⟨rfl, g.2.1, g.1⟩

theorem claim_C4_witness :
    (⟨"(, λ, @, or SYMBOL", eofType⟩ : ParserError) =
        ⟨"(, λ, @, or SYMBOL", eofType⟩ ∧
      eofType = (currentToken []).type ∧ ([] : List Token) <:+ [] :=
  claim_C4 [] [] ⟨"(, λ, @, or SYMBOL", eofType⟩ rfl

/-- C5: parsing `(`, SYMBOL"x", SYMBOL"y", `)` yields an Application
whose function-position child is Variable "x" and whose
argument-position child is Variable "y"; swapping the two SYMBOL tokens
swaps which position holds which variable. -/
theorem claim_C5 :
    parse [⟨"(", "("⟩, ⟨"SYMBOL", "x"⟩, ⟨"SYMBOL", "y"⟩, ⟨")", ")"⟩] =
        some (.ok (.Application (.Variable "x") (.Variable "y")), []) ∧
      parse [⟨"(", "("⟩, ⟨"SYMBOL", "y"⟩, ⟨"SYMBOL", "x"⟩, ⟨")", ")"⟩] =
        some (.ok (.Application (.Variable "y") (.Variable "x")), []) :=
  ⟨rfl, rfl⟩

/-- C6: `λ` and `@` are equivalent spellings of the abstraction
introducer: replacing a leading `λ` token by `@` (and vice versa)
yields the same parse outcome on every continuation, and in particular
`λx.x` and `@x.x` parse to identical Abstraction ASTs. -/
theorem claim_C6 :
    (∀ (v w : String) (rest : List Token),
        parse (⟨"λ", v⟩ :: rest) = parse (⟨"@", w⟩ :: rest)) ∧
      parse [⟨"λ", "λ"⟩, ⟨"SYMBOL", "x"⟩, ⟨".", "."⟩, ⟨"SYMBOL", "x"⟩] =
        some (.ok (.Abstraction (.Variable "x") (.Variable "x")), []) ∧
      parse [⟨"@", "@"⟩, ⟨"SYMBOL", "x"⟩, ⟨".", "."⟩, ⟨"SYMBOL", "x"⟩] =
        some (.ok (.Abstraction (.Variable "x") (.Variable "x")), []) := by
  refine ⟨?_, rfl, rfl⟩
  intro v w rest
  simp [parse, expression, currentToken, abstractionWith, advance]

/-- C7: an application missing its closing parenthesis — `(`,
SYMBOL"x", SYMBOL"y", then the end-marker instead of `)` — fails with a
grammar-mismatch whose `expected` is `)` and whose `found` is the
end-marker type; and `_eat` never consumes a mismatching token (on a
mismatch it raises and leaves the state untouched). -/
theorem claim_C7 :
    parse [⟨"(", "("⟩, ⟨"SYMBOL", "x"⟩, ⟨"SYMBOL", "y"⟩] =
        some (.error ⟨")", eofType⟩, []) ∧
      ∀ (p : String) (l : List Token), (currentToken l).type ≠ p →
        eat p l = (.error ⟨p, (currentToken l).type⟩, l) := by
  refine ⟨rfl, ?_⟩
  intro p l hp
  simp [eat, hp]

theorem claim_C7_witness :
    parse [⟨"(", "("⟩, ⟨"SYMBOL", "x"⟩, ⟨"SYMBOL", "y"⟩] =
        some (.error ⟨")", eofType⟩, []) ∧
      eat ")" [] = (.error ⟨")", eofType⟩, []) :=
  ⟨claim_C7.1, claim_C7.2 ")" [] (by decide)⟩

/-- C8: parsing is deterministic: two runs over two independent,
element-wise equal copies of the same token sequence produce
element-wise equal results (same node kinds, names, tree shape, or the
same expected/found error). -/
theorem claim_C8 (l1 l2 : List Token)
    (h : ∀ i : Nat, l1.get? i = l2.get? i) : parse l1 = parse l2 := by
  have heq : l1 = l2 := List.ext_get?_iff.mpr h
  rw [heq]

theorem claim_C8_witness :
    parse [⟨"SYMBOL", "x"⟩] = parse [⟨"SYMBOL", "x"⟩] :=
  claim_C8 _ _ (fun _ => rfl)

/-- C9: for every finite token source (end-marker indefinitely after
the last token), the parse terminates with an AST or a grammar error:
fuel exceeding the token count is never exhausted, because every
recursive expression call consumes at least one token first, so the
recursion is bounded linearly by the token count. -/
theorem claim_C9 (l : List Token) (n : Nat) (hn : l.length < n) :
    expression n l ≠ none ∧ ∃ r, parse l = some r := by
  refine ⟨expression_adequate n l hn, ?_⟩
  have h := expression_adequate (l.length + 1) l (by omega)
  exact Option.ne_none_iff_exists'.mp h

theorem claim_C9_witness :
    expression 1 [] ≠ none ∧ ∃ r, parse [] = some r :=
  claim_C9 [] 1 (by decide)

/-- C10: the leading-token mismatch branches of `_application` and
`_abstraction` are unreachable from `parse()` (the dispatch only enters
them when the lookahead already matches): every error reaching a
`parse()` caller has `expected` among `(, λ, @, or SYMBOL`, `SYMBOL`,
`.`, `)` — never `(` and never `λ or @`. -/
theorem claim_C10 (l l' : List Token) (e : ParserError)
    (h : parse l = some (.error e, l')) :
    e.expected ∈ reachableExpected ∧ e.expected ≠ "(" ∧
      e.expected ≠ "λ or @" := by
  have g := expression_good _ _ _ h
  have mem := g.2.2
  refine ⟨mem, ?_, ?_⟩ <;>
    · simp only [reachableExpected, List.mem_cons, List.mem_singleton,
        List.not_mem_nil, or_false] at mem
      rcases mem with hm | hm | hm | hm <;> rw [hm] <;> decide

theorem claim_C10_witness :
    ("(, λ, @, or SYMBOL" : String) ∈ reachableExpected ∧
      ("(, λ, @, or SYMBOL" : String) ≠ "(" ∧
      ("(, λ, @, or SYMBOL" : String) ≠ "λ or @" :=
  claim_C10 [] [] ⟨"(, λ, @, or SYMBOL", eofType⟩ rfl

end LambdaParser
